import Mathlib

/-!
Verification development for the CSV market-analyzer scripts of this
repository (`complex_csv_analyzer.py` and `csv_analysis.py`).

The pandas dataframe operations used by the scripts are embedded shallowly:

* machine floats are modelled by exact rationals (ℚ); the non-finite float
  values that pandas produces when dividing by a zero total are modelled
  explicitly by the `PdVal` type (`nan`, `inf`, `ninf`), with the IEEE
  comparison rules (every comparison with NaN is false) folded into the
  functions that consume such values;
* a CSV file after `pd.read_csv` is a `RawFrame`: the header row plus the
  data rows, all cells kept as raw strings;
* `pd.to_numeric(col, errors='coerce')` per-cell coercion is `parseNum`
  (integer-numeral fragment: optional sign, digits, surrounding
  whitespace; anything else coerces to missing), and Python's `int(str)`
  is `pyInt`;
* `pd.to_datetime` (which raises on unparseable input) is modelled by the
  `isDate` recognizer for `YYYY-MM-DD`-shaped numerals;
* pandas `Series.sum()` skips missing values (skipna) but propagates
  infinities: `pdSum`;
* `Series.quantile(q)` with the default linear interpolation on the sorted
  present values is `pdQuantile`;
* `DataFrame.nlargest(n, col)` returns the n rows with the largest values
  of the column, ties resolved in favour of earlier rows (keep='first'),
  rows whose value is missing never returned: `nlargest`;
* Python's `round(x, 2)` (round-half-to-even at two decimals) is
  `pyRound2`.

The mutable `self.df` of `CSVAnalyzer` is embedded by explicit state
passing over `AState`; the three summing functions of `csv_analysis.py`
are embedded as `method1_basic_csv`, `method2_pandas`,
`method3_with_stats` over the same `RawFrame` input.
-/

/-- Value of a decimal-digit string, most significant digit first. -/
def digitsToNat (l : List Char) : ℕ :=
  l.foldl (fun a c => 10 * a + (c.toNat - '0'.toNat)) 0

/-- Parse a non-empty all-digit character list; anything else is `none`. -/
def parseNatChars (l : List Char) : Option ℕ :=
  if l ≠ [] ∧ l.all Char.isDigit then some (digitsToNat l) else none

/-- Strip surrounding whitespace from a character list. -/
def trimChars (l : List Char) : List Char :=
  ((l.dropWhile Char.isWhitespace).reverse.dropWhile Char.isWhitespace).reverse

/-- Model of the per-cell coercion performed by
`pd.to_numeric(col, errors='coerce')` (complex_csv_analyzer.py lines
21-22): integer numerals (optional minus sign, surrounding whitespace)
parse to their value, every other cell coerces to missing (`none`). -/
def parseNum (s : String) : Option ℚ :=
  match trimChars s.data with
  | '-' :: rest => (parseNatChars rest).map (fun n => -(n : ℚ))
  | t => (parseNatChars t).map (fun n => (n : ℚ))

/-- Model of Python's `int(str)` (csv_analysis.py lines 14 and 31):
integer numerals with an optional sign parse, anything else raises
(`none` here, turned into an error by the callers). -/
def pyInt (s : String) : Option ℤ :=
  match trimChars s.data with
  | '-' :: rest => (parseNatChars rest).map (fun n => -(n : ℤ))
  | '+' :: rest => (parseNatChars rest).map (fun n => (n : ℤ))
  | t => (parseNatChars t).map (fun n => (n : ℤ))

/-- Recognizer for the `YYYY-MM-DD` date shape, the fragment of
`pd.to_datetime` (complex_csv_analyzer.py line 23) exercised by this
repository's data; `to_datetime` raises on input it cannot parse. -/
def isDate (s : String) : Bool :=
  match s.data.splitOn '-' with
  | [y, m, d] =>
    (y.length == 4) && (m.length == 1 || m.length == 2) &&
    (d.length == 1 || d.length == 2) &&
    (y ++ m ++ d).all Char.isDigit &&
    decide (1 ≤ digitsToNat m) && decide (digitsToNat m ≤ 12) &&
    decide (1 ≤ digitsToNat d) && decide (digitsToNat d ≤ 31)
  | _ => false

/-- A float value as produced by the pandas computations in the analyzer:
either an ordinary (finite) number, modelled exactly by a rational, or one
of the non-finite values NaN, +inf, -inf that numpy division by zero
produces. -/
inductive PdVal where
  | num (q : ℚ)
  | nan
  | inf
  | ninf
deriving DecidableEq

/-- Numpy elementwise division `x / d` where `x` may be missing (NaN):
NaN propagates; division by zero gives +inf, -inf or NaN according to the
sign of the numerator. -/
def pdDiv (x : Option ℚ) (d : ℚ) : PdVal :=
  match x with
  | none => .nan
  | some v =>
    if d = 0 then (if 0 < v then .inf else if v < 0 then .ninf else .nan)
    else .num (v / d)

/-- Numpy elementwise squaring (`** 2`) of a float value. -/
def pdSq : PdVal → PdVal
  | .num q => .num (q * q)
  | .nan => .nan
  | .inf => .inf
  | .ninf => .inf

/-- Finite part of a `PdVal`, used after missing values are filtered. -/
def pdToQ : PdVal → ℚ
  | .num q => q
  | _ => 0

/-- Pandas `Series.sum()` with the default skipna=True: NaN entries are
skipped, infinities propagate (a sum containing both +inf and -inf is
NaN), the sum of no entries is 0. -/
def pdSum (l : List PdVal) : PdVal :=
  let l' := l.filter (fun v => v != PdVal.nan)
  if PdVal.inf ∈ l' then (if PdVal.ninf ∈ l' then .nan else .inf)
  else if PdVal.ninf ∈ l' then .ninf
  else .num ((l'.map pdToQ).sum)

/-- Multiplication of a float value by a positive constant (the `* 10000`
of complex_csv_analyzer.py line 58). -/
def pdScale (c : ℚ) : PdVal → PdVal
  | .num q => .num (c * q)
  | .nan => .nan
  | .inf => .inf
  | .ninf => .ninf

/-- Python's `round(q, 2)`: round half to even at two decimal places. -/
def pyRound2 (q : ℚ) : ℚ :=
  let m := 100 * q
  let fl := Rat.floor m
  let r := m - (fl : ℚ)
  (if r < 1/2 then (fl : ℚ)
   else if 1/2 < r then (fl : ℚ) + 1
   else if Even fl then (fl : ℚ) else (fl : ℚ) + 1) / 100

/-- Python's `round(x, 2)` on a float value; non-finite values round to
themselves. -/
def pdRound2 : PdVal → PdVal
  | .num q => .num (pyRound2 q)
  | v => v

/-- One row of the analyzer's dataframe after the cleaning step
(complex_csv_analyzer.py lines 21-23): the coerced `Visits` and
`Total Share` columns, the validated capture date, and the
`Market_Share_Calc` column, absent (`none`) until
`calculate_market_concentration` writes it. -/
structure Record where
  slug : String
  visits : Option ℚ
  totalShare : Option ℚ
  captureDate : String
  marketShare : Option PdVal
deriving DecidableEq

/-- A delimited file as read by `pd.read_csv` / `csv.DictReader`: the
header row and the data rows, all cells raw strings. -/
structure RawFrame where
  header : List String
  rows : List (List String)
deriving DecidableEq

/-- Errors that the loading/cleaning phase of `CSVAnalyzer` can raise:
`keyError c` for a missing column `c` (pandas `KeyError`), `valueError`
for an unparseable capture date (`pd.to_datetime` raises). -/
inductive LoadError where
  | keyError (col : String)
  | valueError
deriving DecidableEq

/-- Index of a named column in the header, as `df['name']` resolves it. -/
def colIdx (f : RawFrame) (name : String) : Option ℕ :=
  f.header.findIdx? (· == name)

/-- Embedding of `CSVAnalyzer.__init__` (line 14) followed by the
cleaning step of `complex_analysis` (lines 21-23): the `Visits`,
`Total Share` and `Capture Date` columns are accessed (KeyError when
absent, in that order), `Visits` and `Total Share` cells are coerced with
per-cell failure becoming missing, and every capture date must parse
(`pd.to_datetime` raises otherwise).  Every data row of the file becomes
a `Record`; no row is dropped.  The `Slug` column is carried along when
present (later operations select it); its absence first matters in
operations outside the claims under study. -/
def load (f : RawFrame) : Except LoadError (List Record) :=
  match colIdx f "Visits" with
  | none => .error (.keyError "Visits")
  | some iv =>
    match colIdx f "Total Share" with
    | none => .error (.keyError "Total Share")
    | some ish =>
      match colIdx f "Capture Date" with
      | none => .error (.keyError "Capture Date")
      | some idt =>
        if f.rows.all (fun row => isDate (row.getD idt "")) then
          .ok (f.rows.map (fun row =>
            { slug := match colIdx f "Slug" with
                      | some isl => row.getD isl ""
                      | none => ""
              visits := parseNum (row.getD iv "")
              totalShare := parseNum (row.getD ish "")
              captureDate := row.getD idt ""
              marketShare := none }))
        else .error .valueError

/-- The present (non-missing) values of the `Visits` column, the values
every pandas aggregation with skipna=True actually operates on. -/
def presentVisits (ds : List Record) : List ℚ :=
  ds.filterMap (·.visits)

/-- Sort key used by `nlargest(_, 'Visits')` and
`sort_values('Visits')`; only ever applied to records whose visits value
is present. -/
def vkey (r : Record) : ℚ :=
  r.visits.getD 0

/-- Descending-visits comparison between records. -/
def rdesc (a b : Record) : Prop :=
  vkey b ≤ vkey a

instance : DecidableRel rdesc :=
  fun a b => inferInstanceAs (Decidable (vkey b ≤ vkey a))

instance : IsTotal Record rdesc :=
  ⟨fun a b => (le_total (vkey b) (vkey a)).imp id id⟩

instance : IsTrans Record rdesc :=
  ⟨fun _ _ _ h1 h2 => le_trans h2 h1⟩

/-- Pandas `Series.quantile(q)` with the default linear interpolation:
on the present values sorted ascending, position `(n-1)*q` is split into
integer part and fraction and the two neighbouring order statistics are
interpolated; the quantile of an empty series is NaN (`none`). -/
def pdQuantile (xs : List ℚ) (q : ℚ) : Option ℚ :=
  match xs with
  | [] => none
  | _ :: _ =>
    let s := List.insertionSort (· ≤ ·) xs
    let n := xs.length
    let h : ℚ := ((n - 1 : ℕ) : ℚ) * q
    let i : ℕ := (Rat.floor h).toNat
    let lo := s.getD i 0
    let hi := s.getD (i + 1) lo
    some (lo + (h - (i : ℚ)) * (hi - lo))

/-- The aggregate statistics of `complex_analysis` (lines 27-28):
`df['Visits'].describe()` (count, mean, std, min, quartiles, max) and
`df['Visits'].quantile([0.1, 0.25, 0.5, 0.75, 0.9, 0.95, 0.99])`, all
over present values only.  The standard deviation is the square root of
`stdSq` (the sample variance, ddof=1); since the square root of a
rational is not rational, the embedding carries the variance, which
determines it.  Aggregates of an empty series are NaN (`none`); the
sample variance of fewer than two values is NaN. -/
structure DescribeStats where
  count : ℕ
  mean : Option ℚ
  stdSq : Option ℚ
  vmin : Option ℚ
  vmax : Option ℚ
  q25 : Option ℚ
  q50 : Option ℚ
  q75 : Option ℚ
  percentiles : List (Option ℚ)
deriving DecidableEq

/-- Embedding of the `basic_stats` and `percentiles` entries of
`complex_analysis` (complex_csv_analyzer.py lines 27-28). -/
def describeVisits (ds : List Record) : DescribeStats :=
  let v := presentVisits ds
  let n := v.length
  { count := n
    mean := if n = 0 then none else some (v.sum / (n : ℚ))
    stdSq := if n < 2 then none
             else some ((v.map (fun x => (x - v.sum / (n : ℚ)) ^ 2)).sum / ((n - 1 : ℕ) : ℚ))
    vmin := v.min?
    vmax := v.max?
    q25 := pdQuantile v (1/4)
    q50 := pdQuantile v (1/2)
    q75 := pdQuantile v (3/4)
    percentiles := [1/10, 1/4, 1/2, 3/4, 9/10, 19/20, 99/100].map (pdQuantile v) }

/-- Embedding of `detect_outliers` (complex_csv_analyzer.py lines 36-45):
Q1 and Q3 are the 0.25 and 0.75 quantiles of the present visit values
(NaN when there are none, in which case both fence comparisons are false
for every row and the result is empty); a row passes the filter when its
visits value is present and lies strictly below `Q1 - 1.5*IQR` or
strictly above `Q3 + 1.5*IQR` (a missing value satisfies neither
comparison); the surviving rows are sorted by visits descending
(`sort_values('Visits', ascending=False)`; the source's sort is
implementation-defined on ties, embedded here as a stable sort, and no
claim concerns the tie order of outliers). -/
def detect_outliers (ds : List Record) : List Record :=
  match pdQuantile (presentVisits ds) (1/4), pdQuantile (presentVisits ds) (3/4) with
  | some q1, some q3 =>
    let iqr := q3 - q1
    let lb := q1 - 3/2 * iqr
    let ub := q3 + 3/2 * iqr
    List.insertionSort rdesc
      (ds.filter (fun r =>
        match r.visits with
        | some v => decide (v < lb) || decide (ub < v)
        | none => false))
  | _, _ => []

/-- Embedding of `DataFrame.nlargest(n, 'Visits')` (complex_csv_analyzer.py
lines 30 and 53-55): the n rows with the largest visits values, in
descending order, ties resolved in favour of earlier rows (keep='first'),
rows with a missing visits value never returned; when fewer than n rows
have a present value, all of them are returned. -/
def nlargest (n : ℕ) (ds : List Record) : List Record :=
  (List.insertionSort rdesc (ds.filter (fun r => r.visits.isSome))).take n

/-- Total of the `Visits` column (`self.df['Visits'].sum()`, line 49);
pandas sums the present values and returns 0 for an all-missing or empty
column. -/
def totalVisits (ds : List Record) : ℚ :=
  (presentVisits ds).sum

/-- The `Market_Share_Calc` column written on line 50: each row's visits
value divided by the total. -/
def sharesOf (ds : List Record) : List PdVal :=
  ds.map (fun r => pdDiv r.visits (totalVisits ds))

/-- The Herfindahl-Hirschman index of line 58:
`(self.df['Market_Share_Calc'] ** 2).sum() * 10000`. -/
def hhiOf (ds : List Record) : PdVal :=
  pdScale 10000 (pdSum ((sharesOf ds).map pdSq))

/-- Embedding of `classify_market_concentration` (lines 68-75).  The
comparisons are Python float comparisons: every comparison with NaN is
false, so a NaN HHI falls through to the final branch, as does +inf,
while -inf takes the first branch. -/
def classify_market_concentration (hhi : PdVal) : String :=
  match hhi with
  | .num q =>
    if q < 1500 then "Competitive Market"
    else if q < 2500 then "Moderately Concentrated"
    else "Highly Concentrated"
  | .nan => "Highly Concentrated"
  | .inf => "Highly Concentrated"
  | .ninf => "Competitive Market"

/-- The in-memory state of a `CSVAnalyzer`: the (mutable) dataframe, the
file content it was read from, and the stored path.  The source file
content is part of the state so that the absence of write-back is a
statement, not a convention. -/
structure AState where
  df : List Record
  src : RawFrame
  csvPath : String
deriving DecidableEq

/-- Construction of the analyzer state by `__init__` plus the cleaning
step: the dataframe is the loaded dataset, the source content and path
are stored unchanged. -/
def loadAnalyzer (f : RawFrame) (path : String) : Except LoadError AState :=
  (load f).map (fun ds => { df := ds, src := f, csvPath := path })

/-- The `describe`/`quantile` step as a state transformer: it reads the
dataframe and changes nothing. -/
def describeState (s : AState) : DescribeStats × AState :=
  (describeVisits s.df, s)

/-- `detect_outliers` as a state transformer: it reads the dataframe and
changes nothing. -/
def detectOutliersState (s : AState) : List Record × AState :=
  (detect_outliers s.df, s)

/-- `nlargest` (the `top_performers` selection of line 30) as a state
transformer: it reads the dataframe and changes nothing. -/
def topNState (n : ℕ) (s : AState) : List Record × AState :=
  (nlargest n s.df, s)

/-- The result dictionary of `calculate_market_concentration`
(lines 60-66).  The source formats the three top-k shares as percent
strings (presentation only); the embedding keeps the numeric sums. -/
structure ConcResult where
  top5 : PdVal
  top10 : PdVal
  top20 : PdVal
  hhiIdx : PdVal
  classification : String
deriving DecidableEq

/-- Embedding of `calculate_market_concentration` (lines 47-66): the
total is summed, the `Market_Share_Calc` column is written into the
dataframe (the one mutation the method makes), the top-5/10/20 share
sums are taken over that column restricted to the `nlargest` rows, the
HHI is `(column ** 2).sum() * 10000`, the reported index is
`round(hhi, 2)` and the classification applies to the unrounded HHI.
The method raises nothing: every input produces a result. -/
def calculate_market_concentration (s : AState) : ConcResult × AState :=
  let T := totalVisits s.df
  let df' := s.df.map (fun r => { r with marketShare := some (pdDiv r.visits T) })
  let topShare := fun k => pdSum ((nlargest k df').map (fun r => r.marketShare.getD PdVal.nan))
  let hhi := pdScale 10000 (pdSum (df'.map (fun r => pdSq (r.marketShare.getD PdVal.nan))))
  ({ top5 := topShare 5
     top10 := topShare 10
     top20 := topShare 20
     hhiIdx := pdRound2 hhi
     classification := classify_market_concentration hhi }, { s with df := df' })

/-- Errors raised by the `csv_analysis.py` functions: `KeyError` from a
`DictReader` row lacking the `Visits` key, `ValueError` from `int()` on a
non-numeral, `ZeroDivisionError` from `total / len(visits)` on an empty
list. -/
inductive PyError where
  | keyError
  | valueError
  | zeroDivisionError
deriving DecidableEq

/-- The value of `df['Visits'].sum()` as `method2_pandas` returns it:
an integer when `read_csv` inferred an integer column, the concatenation
of the raw cells when it fell back to the object (string) dtype. -/
inductive PyVal where
  | int (z : ℤ)
  | str (s : String)
deriving DecidableEq

/-- Embedding of `method1_basic_csv` (csv_analysis.py lines 8-15): a
running total over the rows, `int(row['Visits'])` on each; a missing
`Visits` column raises `KeyError` at the first row, an unparseable cell
raises `ValueError`; a file with no data rows returns 0 without touching
the header. -/
def method1_basic_csv (f : RawFrame) : Except PyError ℤ :=
  f.rows.foldlM (fun acc row =>
    match colIdx f "Visits" with
    | none => Except.error .keyError
    | some i =>
      match pyInt (row.getD i "") with
      | none => Except.error .valueError
      | some n => Except.ok (acc + n)) 0

/-- Embedding of `method2_pandas` (csv_analysis.py lines 17-23):
`pd.read_csv` then `df['Visits'].sum()`.  A missing `Visits` column
raises `KeyError` (the source catches only `ImportError`).  When every
cell of the column is an integer numeral, `read_csv` infers an integer
column and the sum is the integer total (0 for an empty column);
otherwise the column keeps the object dtype and summing concatenates the
raw strings. -/
def method2_pandas (f : RawFrame) : Except PyError PyVal :=
  match colIdx f "Visits" with
  | none => Except.error .keyError
  | some i =>
    let cells := f.rows.map (fun row => row.getD i "")
    if cells.all (fun c => (pyInt c).isSome) then
      Except.ok (.int ((cells.filterMap pyInt).sum))
    else
      Except.ok (.str (String.join cells))

/-- The statistics dictionary returned by `method3_with_stats`
(csv_analysis.py lines 38-44); `average` is `round(total/len, 2)`. -/
structure Method3Stats where
  total : ℤ
  count : ℕ
  average : ℚ
  maxV : ℤ
  minV : ℤ
deriving DecidableEq

/-- The collection loop of `method3_with_stats` (csv_analysis.py lines
27-31): `visits.append(int(row['Visits']))` over the rows in order, with
`KeyError` on a row lacking the `Visits` key and `ValueError` from
`int()` on a non-numeral. -/
def readVisits (f : RawFrame) : List (List String) → Except PyError (List ℤ)
  | [] => Except.ok []
  | row :: rest =>
    match colIdx f "Visits" with
    | none => Except.error PyError.keyError
    | some i =>
      match pyInt (row.getD i "") with
      | none => Except.error PyError.valueError
      | some n => (readVisits f rest).map (fun vs => n :: vs)

/-- Embedding of `method3_with_stats` (csv_analysis.py lines 25-44): the
visits values are collected first (KeyError / ValueError exactly as in
`method1_basic_csv`), then `avg = total / len(visits)` raises
`ZeroDivisionError` on an empty list (before `max`/`min` are reached);
otherwise the result carries total, count, rounded average, max and min
(the list is non-empty, so `max`/`min` do not raise and the `getD`
defaults below are never taken). -/
def method3_with_stats (f : RawFrame) : Except PyError Method3Stats :=
  match readVisits f f.rows with
  | .error e => .error e
  | .ok vs =>
    if vs.length = 0 then .error .zeroDivisionError
    else
      .ok { total := vs.sum
            count := vs.length
            average := pyRound2 ((vs.sum : ℚ) / (vs.length : ℚ))
            maxV := (vs.max?).getD 0
            minV := (vs.min?).getD 0 }

/-! ### Concrete inputs used by witnesses and counterexamples -/

/-- A file with the expected header and no data rows: the empty dataset. -/
def f0 : RawFrame := ⟨["Slug", "Visits", "Total Share", "Capture Date"], []⟩

/-- The dataset of the spec's concrete HHI scenario: visits 100, 50, 50. -/
def ds3 : List Record :=
  [⟨"a", some 100, none, "", none⟩, ⟨"b", some 50, none, "", none⟩,
   ⟨"c", some 50, none, "", none⟩]

/-- Eight records with one visit each: HHI = 10000/8 = 1250 < 1500. -/
def dsC : List Record :=
  [⟨"a", some 1, none, "", none⟩, ⟨"b", some 1, none, "", none⟩,
   ⟨"c", some 1, none, "", none⟩, ⟨"d", some 1, none, "", none⟩,
   ⟨"e", some 1, none, "", none⟩, ⟨"f", some 1, none, "", none⟩,
   ⟨"g", some 1, none, "", none⟩, ⟨"h", some 1, none, "", none⟩]

/-- The single outlier record of `ds4`. -/
def recE : Record := ⟨"e", some 100, none, "", none⟩

/-- Five present values 1, 1, 1, 1, 100 (Q1 = Q3 = 1, so 100 is an
outlier) plus one record with a missing visits value. -/
def ds4 : List Record :=
  [⟨"a", some 1, none, "", none⟩, ⟨"b", some 1, none, "", none⟩,
   ⟨"c", some 1, none, "", none⟩, ⟨"d", some 1, none, "", none⟩,
   recE, ⟨"m", none, none, "", none⟩]

/-- Two records, one with a missing visits value. -/
def dsm : List Record := [⟨"a", some 1, none, "", none⟩, ⟨"b", none, none, "", none⟩]

/-- A file whose `Visits` column is present but entirely unparseable. -/
def fBad : RawFrame :=
  ⟨["Slug", "Visits", "Total Share", "Capture Date"],
   [["x", "abc", "1", "2023-11-17"]]⟩

/-- A file lacking the `Visits` column. -/
def fNoVis : RawFrame :=
  ⟨["Slug", "Total Share", "Capture Date"], [["x", "1", "2023-11-17"]]⟩

/-- A file in which exactly the middle row's visits value is unparseable. -/
def f6 : RawFrame :=
  ⟨["Slug", "Visits", "Total Share", "Capture Date"],
   [["x", "10", "1", "2023-11-17"], ["y", "oops", "2", "2023-11-17"],
    ["z", "30", "3", "2023-11-17"]]⟩

/-- The dataset `f6` loads to. -/
def ds6 : List Record :=
  [⟨"x", some 10, some 1, "2023-11-17", none⟩,
   ⟨"y", none, some 2, "2023-11-17", none⟩,
   ⟨"z", some 30, some 3, "2023-11-17", none⟩]

/-- A two-row file whose visits values are the integers 10 and 20. -/
def f9 : RawFrame := ⟨["Visits"], [["10"], ["20"]]⟩

/-- A file with a `Visits` header and no data rows. -/
def f9e : RawFrame := ⟨["Visits"], []⟩

/-! ### Helper lemmas -/

theorem pd_num_ne_nan (q : ℚ) : (PdVal.num q = PdVal.nan) = False :=
  eq_false (fun h => by cases h)

theorem pd_inf_ne_num (q : ℚ) : (PdVal.inf = PdVal.num q) = False :=
  eq_false (fun h => by cases h)

theorem pd_ninf_ne_num (q : ℚ) : (PdVal.ninf = PdVal.num q) = False :=
  eq_false (fun h => by cases h)

theorem pd_inf_ne_nan : (PdVal.inf = PdVal.nan) = False :=
  eq_false (fun h => by cases h)

theorem pd_ninf_ne_nan : (PdVal.ninf = PdVal.nan) = False :=
  eq_false (fun h => by cases h)

theorem ratFloor_eq (q : ℚ) : Rat.floor q = ⌊q⌋ :=
  (Rat.floor_def' q).trans Rat.floor_def.symm

theorem getD_of_all_eq {l : List ℚ} {c : ℚ} (h : ∀ x ∈ l, x = c) :
    ∀ {i : ℕ}, i < l.length → ∀ d, l.getD i d = c := by
  induction l with
  | nil => intro i hi; simp at hi
  | cons a t ih =>
    intro i hi d
    cases i with
    | zero => simpa using h a (by simp)
    | succ j =>
      have ht : ∀ x ∈ t, x = c := fun x hx => h x (by simp [hx])
      simpa using ih ht (by simpa using hi) d

theorem getD_of_all_eq_default {l : List ℚ} {c : ℚ} (h : ∀ x ∈ l, x = c) (i : ℕ) :
    l.getD i c = c := by
  by_cases hi : i < l.length
  · exact getD_of_all_eq h hi c
  · rw [List.getD_eq_getElem?_getD, List.getElem?_eq_none (by omega)]
    rfl

theorem pdQuantile_const {xs : List ℚ} {c : ℚ} (hne : xs ≠ [])
    (hall : ∀ x ∈ xs, x = c) {q : ℚ} (h1 : q ≤ 1) :
    pdQuantile xs q = some c := by
  obtain ⟨a, t, rfl⟩ := List.exists_cons_of_ne_nil hne
  have hsall : ∀ x ∈ List.insertionSort (· ≤ ·) (a :: t), x = c := fun x hx =>
    hall x ((List.perm_insertionSort (· ≤ ·) (a :: t)).mem_iff.mp hx)
  have hslen : (List.insertionSort (· ≤ ·) (a :: t)).length = (a :: t).length :=
    (List.perm_insertionSort (· ≤ ·) (a :: t)).length_eq
  simp only [pdQuantile]
  set n := (a :: t).length with hn
  have hnpos : 1 ≤ n := by simp [hn]
  set h : ℚ := ((n - 1 : ℕ) : ℚ) * q with hh
  have hfl : (Rat.floor h).toNat < n := by
    rw [ratFloor_eq]
    have hhle : h ≤ ((n - 1 : ℕ) : ℚ) := by
      rw [hh]
      calc ((n - 1 : ℕ) : ℚ) * q ≤ ((n - 1 : ℕ) : ℚ) * 1 := by
            apply mul_le_mul_of_nonneg_left h1 (by positivity)
        _ = ((n - 1 : ℕ) : ℚ) := mul_one _
    have : ⌊h⌋ ≤ (n - 1 : ℕ) := by
      calc ⌊h⌋ ≤ ⌊((n - 1 : ℕ) : ℚ)⌋ := Int.floor_le_floor hhle
        _ = (n - 1 : ℕ) := Int.floor_natCast _
    have := Int.toNat_le.mpr this
    omega
  have hlo : (List.insertionSort (· ≤ ·) (a :: t)).getD (Rat.floor h).toNat 0 = c :=
    getD_of_all_eq hsall (by omega) 0
  rw [hlo]
  rw [getD_of_all_eq_default hsall]
  simp [mul_comm]

theorem presentVisits_perm {ds ds' : List Record} (h : ds.Perm ds') :
    (presentVisits ds).Perm (presentVisits ds') :=
  h.filterMap _

theorem totalVisits_perm {ds ds' : List Record} (h : ds.Perm ds') :
    totalVisits ds = totalVisits ds' :=
  (presentVisits_perm h).sum_eq

theorem pdSum_perm {l l' : List PdVal} (h : l.Perm l') : pdSum l = pdSum l' := by
  have hf : (l.filter (fun v => v != PdVal.nan)).Perm (l'.filter (fun v => v != PdVal.nan)) :=
    h.filter _
  simp only [pdSum]
  rw [(hf.map pdToQ).sum_eq]
  simp only [hf.mem_iff]

theorem presentVisits_cons_none {r : Record} {t : List Record} (h : r.visits = none) :
    presentVisits (r :: t) = presentVisits t := by
  simp [presentVisits, List.filterMap_cons, h]

theorem presentVisits_cons_some {r : Record} {t : List Record} {v : ℚ}
    (h : r.visits = some v) : presentVisits (r :: t) = v :: presentVisits t := by
  simp [presentVisits, List.filterMap_cons, h]

theorem map_sq_div_filter (T : ℚ) (hT : T ≠ 0) (ds : List Record) :
    (ds.map (fun r => pdSq (pdDiv r.visits T))).filter (fun v => v != PdVal.nan) =
    (presentVisits ds).map (fun v => PdVal.num ((v / T) * (v / T))) := by
  induction ds with
  | nil => simp [presentVisits]
  | cons r t ih =>
    cases hv : r.visits with
    | none =>
      rw [presentVisits_cons_none hv, ← ih, List.map_cons, List.filter_cons]
      have hh : pdSq (pdDiv r.visits T) = PdVal.nan := by rw [hv]; rfl
      rw [hh]
      simp
    | some v =>
      rw [presentVisits_cons_some hv, List.map_cons, List.map_cons, List.filter_cons, ← ih]
      have hh : pdSq (pdDiv r.visits T) = PdVal.num ((v / T) * (v / T)) := by
        rw [hv]; simp [pdDiv, if_neg hT, pdSq]
      rw [hh]
      simp [bne_iff_ne]

theorem num_not_mem_num_map (l : List ℚ) (g : ℚ → ℚ) :
    PdVal.inf ∉ l.map (fun x => PdVal.num (g x)) ∧
    PdVal.ninf ∉ l.map (fun x => PdVal.num (g x)) := by
  constructor <;> · intro h; rcases List.mem_map.mp h with ⟨x, _, hx⟩; cases hx

theorem hhiOf_eq (ds : List Record) (hT : totalVisits ds ≠ 0) :
    hhiOf ds =
      .num (10000 * ((presentVisits ds).map (fun v => (v / totalVisits ds) ^ 2)).sum) := by
  have hmm : (sharesOf ds).map pdSq = ds.map (fun r => pdSq (pdDiv r.visits (totalVisits ds))) := by
    simp [sharesOf, List.map_map, Function.comp]
  have hfil := map_sq_div_filter (totalVisits ds) hT ds
  have hnm := num_not_mem_num_map (presentVisits ds)
    (fun v => (v / totalVisits ds) * (v / totalVisits ds))
  simp only [hhiOf, hmm, pdSum, hfil]
  rw [if_neg hnm.1, if_neg hnm.2]
  simp only [pdScale, List.map_map]
  have hmap : List.map (pdToQ ∘ fun v => PdVal.num ((v / totalVisits ds) * (v / totalVisits ds)))
      (presentVisits ds) =
      List.map (fun v => (v / totalVisits ds) ^ 2) (presentVisits ds) := by
    apply List.map_congr_left
    intro v _
    simp [pdToQ, Function.comp, pow_two]
  rw [hmap]

theorem hhiOf_perm {ds ds' : List Record} (h : ds.Perm ds') : hhiOf ds' = hhiOf ds := by
  have hT : totalVisits ds' = totalVisits ds := (totalVisits_perm h).symm
  have hsh : (sharesOf ds').Perm (sharesOf ds) := by
    simp only [sharesOf, hT]
    exact h.symm.map _
  simp only [hhiOf]
  rw [pdSum_perm (hsh.map pdSq)]

theorem sum_map_div (l : List ℚ) (T : ℚ) : (l.map (fun v => v / T)).sum = l.sum / T := by
  induction l with
  | nil => simp
  | cons a t ih => simp [ih, add_div]

theorem sum_sq_le_sq_sum : ∀ (l : List ℚ), (∀ x ∈ l, 0 ≤ x) →
    (l.map (fun x => x ^ 2)).sum ≤ l.sum ^ 2 := by
  intro l
  induction l with
  | nil => simp
  | cons a t ih =>
    intro h
    have ha : 0 ≤ a := h a (by simp)
    have ht : ∀ x ∈ t, 0 ≤ x := fun x hx => h x (by simp [hx])
    have hts : 0 ≤ t.sum := List.sum_nonneg ht
    have := ih ht
    simp only [List.map_cons, List.sum_cons]
    nlinarith [this, ha, hts]

theorem sum_sq_pos : ∀ (l : List ℚ), (∀ x ∈ l, 0 ≤ x) → 0 < l.sum →
    0 < (l.map (fun x => x ^ 2)).sum := by
  intro l
  induction l with
  | nil => intro _ h; simp at h
  | cons a t ih =>
    intro h hpos
    have ha : 0 ≤ a := h a (by simp)
    have ht : ∀ x ∈ t, 0 ≤ x := fun x hx => h x (by simp [hx])
    have hsq : 0 ≤ (t.map (fun x => x ^ 2)).sum :=
      List.sum_nonneg (by intro x hx; rcases List.mem_map.mp hx with ⟨y, _, rfl⟩; positivity)
    rcases eq_or_lt_of_le ha with rfl | hapos
    · have : 0 < t.sum := by simpa using hpos
      have := ih ht this
      simp only [List.map_cons, List.sum_cons]
      nlinarith
    · simp only [List.map_cons, List.sum_cons]
      nlinarith

theorem filter_visits_orderedInsert (v : ℚ) (a : Record) (l : List Record) :
    (List.orderedInsert rdesc a l).filter (fun r => decide (r.visits = some v)) =
    if a.visits = some v
    then a :: l.filter (fun r => decide (r.visits = some v))
    else l.filter (fun r => decide (r.visits = some v)) := by
  induction l with
  | nil =>
    by_cases h : a.visits = some v <;> simp [List.orderedInsert, List.filter, h]
  | cons b t ih =>
    by_cases hab : rdesc a b
    · by_cases ha : a.visits = some v <;> by_cases hb : b.visits = some v <;>
        simp [List.orderedInsert, if_pos hab, List.filter_cons, ha, hb]
    · simp only [List.orderedInsert, if_neg hab, List.filter_cons]
      by_cases ha : a.visits = some v
      · have hb : ¬ (b.visits = some v) := by
          intro hbv
          exact hab (by simp [rdesc, vkey, ha, hbv])
        simp [ha, hb, ih]
      · simp [ha, ih]

theorem filter_visits_insertionSort (v : ℚ) (l : List Record) :
    (List.insertionSort rdesc l).filter (fun r => decide (r.visits = some v)) =
    l.filter (fun r => decide (r.visits = some v)) := by
  induction l with
  | nil => rfl
  | cons a t ih =>
    rw [List.insertionSort, filter_visits_orderedInsert, List.filter_cons]
    by_cases ha : a.visits = some v <;> simp [ha, ih]

theorem load_ok_elim {f : RawFrame} {ds : List Record} (h : load f = .ok ds) :
    ∃ iv ish idt, colIdx f "Visits" = some iv ∧ colIdx f "Total Share" = some ish ∧
      colIdx f "Capture Date" = some idt ∧
      (∀ row ∈ f.rows, isDate (row.getD idt "") = true) ∧
      ds = f.rows.map (fun row =>
        { slug := match colIdx f "Slug" with
                  | some isl => row.getD isl ""
                  | none => ""
          visits := parseNum (row.getD iv "")
          totalShare := parseNum (row.getD ish "")
          captureDate := row.getD idt ""
          marketShare := none }) := by
  unfold load at h
  split at h
  next hv => exact Except.noConfusion h
  next iv hv =>
    split at h
    next hs => exact Except.noConfusion h
    next ish hs =>
      split at h
      next hd => exact Except.noConfusion h
      next idt hd =>
        split at h
        next hall =>
          injection h with h'
          exact ⟨iv, ish, idt, hv, hs, hd, List.all_eq_true.mp hall, h'.symm⟩
        next hall => exact Except.noConfusion h

theorem load_ok_of {f : RawFrame} {iv ish idt : ℕ}
    (hv : colIdx f "Visits" = some iv) (hs : colIdx f "Total Share" = some ish)
    (hd : colIdx f "Capture Date" = some idt)
    (hdate : ∀ row ∈ f.rows, isDate (row.getD idt "") = true) :
    load f = .ok (f.rows.map (fun row =>
      { slug := match colIdx f "Slug" with
                | some isl => row.getD isl ""
                | none => ""
        visits := parseNum (row.getD iv "")
        totalShare := parseNum (row.getD ish "")
        captureDate := row.getD idt ""
        marketShare := none })) := by
  unfold load
  simp only [hv, hs, hd]
  rw [if_pos (List.all_eq_true.mpr hdate)]

theorem load_none_visits {f : RawFrame} (h : colIdx f "Visits" = none) :
    load f = .error (.keyError "Visits") := by
  unfold load
  rw [h]

theorem presentVisits_eraseIdx : ∀ (ds : List Record) (i : ℕ) (hi : i < ds.length),
    (ds.get ⟨i, hi⟩).visits = none → presentVisits (ds.eraseIdx i) = presentVisits ds := by
  intro ds
  induction ds with
  | nil => intro i hi; simp at hi
  | cons r t ih =>
    intro i hi hnone
    cases i with
    | zero =>
      simp only [List.get] at hnone
      rw [List.eraseIdx_cons_zero, presentVisits_cons_none hnone]
    | succ j =>
      rw [List.eraseIdx_cons_succ]
      have hj : j < t.length := by simpa using hi
      have hnone' : (t.get ⟨j, hj⟩).visits = none := by simpa [List.get] using hnone
      cases hv : r.visits with
      | none => rw [presentVisits_cons_none hv, presentVisits_cons_none hv, ih j hj hnone']
      | some v =>
        rw [presentVisits_cons_some hv, presentVisits_cons_some hv, ih j hj hnone']

theorem describeVisits_congr {a b : List Record} (h : presentVisits a = presentVisits b) :
    describeVisits a = describeVisits b := by
  simp only [describeVisits, h]

theorem conc_proj (s : AState) :
    (calculate_market_concentration s).1.classification =
      classify_market_concentration (hhiOf s.df) ∧
    (calculate_market_concentration s).1.hhiIdx = pdRound2 (hhiOf s.df) := by
  have hmap : (s.df.map (fun r =>
        { r with marketShare := some (pdDiv r.visits (totalVisits s.df)) })).map
      (fun r => pdSq (r.marketShare.getD PdVal.nan)) = (sharesOf s.df).map pdSq := by
    rw [List.map_map, sharesOf, List.map_map]
    exact List.map_congr_left (fun r _ => rfl)
  simp only [calculate_market_concentration, hmap, hhiOf]
  exact ⟨trivial, trivial⟩

theorem except_bind_ok {ε α β : Type} (a : α) (k : α → Except ε β) :
    (Except.ok a >>= k : Except ε β) = k a := rfl

theorem method1_fold {f : RawFrame} {i : ℕ} (hcol : colIdx f "Visits" = some i) :
    ∀ (rows : List (List String)),
      (∀ row ∈ rows, (pyInt (row.getD i "")).isSome = true) →
    ∀ acc : ℤ,
      (rows.foldlM (fun acc row =>
        match colIdx f "Visits" with
        | none => Except.error .keyError
        | some i =>
          match pyInt (row.getD i "") with
          | none => Except.error .valueError
          | some n => Except.ok (acc + n)) acc : Except PyError ℤ) =
      Except.ok (acc + (rows.filterMap (fun row => pyInt (row.getD i ""))).sum) := by
  intro rows
  induction rows with
  | nil => intro _ acc; simp [List.foldlM, pure, Except.pure]
  | cons row rest ih =>
    intro hall acc
    rcases Option.isSome_iff_exists.mp (hall row (by simp)) with ⟨n, hn⟩
    have hrest : ∀ r ∈ rest, (pyInt (r.getD i "")).isSome = true :=
      fun r hr => hall r (by simp [hr])
    simp only [hcol] at ih ⊢
    simp only [List.foldlM, hn, List.filterMap_cons, List.sum_cons]
    rw [except_bind_ok]
    rw [ih hrest (acc + n)]
    congr 1
    ring

theorem readVisits_ok {f : RawFrame} {i : ℕ} (hcol : colIdx f "Visits" = some i) :
    ∀ rows, (∀ row ∈ rows, (pyInt (row.getD i "")).isSome = true) →
    readVisits f rows = .ok (rows.filterMap (fun row => pyInt (row.getD i ""))) := by
  intro rows
  induction rows with
  | nil => intro _; rfl
  | cons row rest ih =>
    intro hall
    rcases Option.isSome_iff_exists.mp (hall row (by simp)) with ⟨n, hn⟩
    have hrest : ∀ r ∈ rest, (pyInt (r.getD i "")).isSome = true :=
      fun r hr => hall r (by simp [hr])
    simp only [readVisits, hcol, hn, ih hrest, List.filterMap_cons]
    rfl

theorem filterMap_pyInt_ne_nil {rows : List (List String)} {i : ℕ} (hne : rows ≠ [])
    (hall : ∀ row ∈ rows, (pyInt (row.getD i "")).isSome = true) :
    rows.filterMap (fun row => pyInt (row.getD i "")) ≠ [] := by
  cases rows with
  | nil => exact absurd rfl hne
  | cons row rest =>
    rcases Option.isSome_iff_exists.mp (hall row (by simp)) with ⟨n, hn⟩
    simp only [List.filterMap_cons, hn]
    simp

theorem presentVisits_ds3 : presentVisits ds3 = [100, 50, 50] := by
  simp [presentVisits, ds3, List.filterMap_cons]

theorem totalVisits_ds3 : totalVisits ds3 = 200 := by
  rw [totalVisits, presentVisits_ds3]; norm_num

theorem hhi_ds3_eval : hhiOf ds3 = .num 3750 := by
  rw [hhiOf, sharesOf, totalVisits_ds3]
  norm_num [ds3, pdDiv, pdSq, pdSum, pdToQ, pdScale, List.filter_cons, List.filter_nil,
    bne_iff_ne, pd_num_ne_nan, pd_inf_ne_num, pd_ninf_ne_num, pd_inf_ne_nan, pd_ninf_ne_nan]

theorem presentVisits_dsC : presentVisits dsC = [1, 1, 1, 1, 1, 1, 1, 1] := by
  simp [presentVisits, dsC, List.filterMap_cons]

theorem totalVisits_dsC : totalVisits dsC = 8 := by
  rw [totalVisits, presentVisits_dsC]; norm_num

theorem hhi_dsC_eval : hhiOf dsC = .num 1250 := by
  rw [hhiOf, sharesOf, totalVisits_dsC]
  norm_num [dsC, pdDiv, pdSq, pdSum, pdToQ, pdScale, List.filter_cons, List.filter_nil,
    bne_iff_ne, pd_num_ne_nan, pd_inf_ne_num, pd_ninf_ne_num, pd_inf_ne_nan, pd_ninf_ne_nan]

theorem presentVisits_ds4 : presentVisits ds4 = [1, 1, 1, 1, 100] := by
  simp [presentVisits, ds4, recE, List.filterMap_cons]

theorem q1_ds4 : pdQuantile (presentVisits ds4) (1/4) = some 1 := by
  rw [presentVisits_ds4]
  norm_num [pdQuantile, List.insertionSort, List.orderedInsert, Rat.floor]

theorem q3_ds4 : pdQuantile (presentVisits ds4) (3/4) = some 1 := by
  rw [presentVisits_ds4]
  norm_num [pdQuantile, List.insertionSort, List.orderedInsert, Rat.floor,
    show Int.toNat 3 = 3 from rfl]

theorem detOut_ds4 : detect_outliers ds4 = [recE] := by
  simp only [detect_outliers, q1_ds4, q3_ds4]
  norm_num [ds4, recE, List.filter_cons, List.filter_nil, List.insertionSort,
    List.orderedInsert]

/-! ### Claim theorems -/

/-- C1: the claim says `market_concentration()` fails with a
`DegenerateInputError` whenever the total of present visit counts is zero,
in particular on the empty dataset.  The code has no such error: on the
empty dataset (a header-only file loads to `[]`, total visits 0) it
returns an ordinary result, HHI index 0.0 classified "Competitive
Market", raising nothing.  This theorem evaluates the embedded code at
that failing input. -/
theorem C1_zero_total_returns_result :
    load f0 = Except.ok [] ∧ totalVisits [] = 0 ∧
    (calculate_market_concentration ⟨[], f0, "2023-11-17.csv"⟩).1 =
      { top5 := .num 0, top10 := .num 0, top20 := .num 0,
        hhiIdx := .num 0, classification := "Competitive Market" } := by
  refine ⟨rfl, rfl, ?_⟩
  norm_num [calculate_market_concentration, totalVisits, presentVisits, pdSum, pdRound2,
    pyRound2, nlargest, pdScale, classify_market_concentration, pdToQ, Rat.floor]

/-- C2 counterexample: a file whose `Visits` column is present but
entirely unparseable loads successfully (the value becomes missing); the
claim as stated demands a `FormatError` for an entirely unparseable
column. -/
theorem C2_counterexample :
    load fBad = Except.ok [⟨"x", none, some 1, "2023-11-17", none⟩] ∧
    ∀ e, load fBad ≠ Except.error e := by
  refine ⟨rfl, ?_⟩
  intro e h
  rw [show load fBad = Except.ok [⟨"x", none, some 1, "2023-11-17", none⟩] from rfl] at h
  exact Except.noConfusion h

/-- C2 (amended): `load` fails with a `FormatError` (KeyError) when the
visits column is absent; whenever it succeeds, every row of the file is
retained and each row's visits value is the per-cell coercion (so
individual unparseable values become missing); and no content of the
visits cells can make the load fail — failure is decided only by the
headers and the capture dates. -/
theorem C2_load_amended (f : RawFrame) :
    (colIdx f "Visits" = none → load f = .error (.keyError "Visits")) ∧
    (∀ ds, load f = .ok ds →
      ds.length = f.rows.length ∧
      ∃ iv, colIdx f "Visits" = some iv ∧
        ∀ j (hj : j < ds.length) (hj' : j < f.rows.length),
          (ds.get ⟨j, hj⟩).visits = parseNum ((f.rows.get ⟨j, hj'⟩).getD iv "")) ∧
    (∀ iv ish idt, colIdx f "Visits" = some iv → colIdx f "Total Share" = some ish →
      colIdx f "Capture Date" = some idt →
      (∀ row ∈ f.rows, isDate (row.getD idt "") = true) →
      ∃ ds, load f = .ok ds) := by
  refine ⟨load_none_visits, ?_, ?_⟩
  · intro ds h
    obtain ⟨iv, ish, idt, hv, hs, hd, hdate, rfl⟩ := load_ok_elim h
    refine ⟨by simp, iv, hv, ?_⟩
    intro j hj hj'
    simp [List.get_eq_getElem]
  · intro iv ish idt hv hs hd hdate
    exact ⟨_, load_ok_of hv hs hd hdate⟩

/-- C2 witness: the amended theorem applied at a file lacking the visits
column and at a file whose visits column is present but unparseable. -/
theorem C2_witness :
    load fNoVis = Except.error (.keyError "Visits") ∧ ∃ ds, load fBad = Except.ok ds :=
  ⟨(C2_load_amended fNoVis).1 rfl,
   (C2_load_amended fBad).2.2 1 2 3 rfl rfl rfl (by decide)⟩

/-- C3 counterexample: on a dataset whose HHI is below 1500 the code
classifies the market as "Competitive Market", not the claim's quoted
label "Competitive". -/
theorem C3_counterexample :
    hhiOf dsC = .num 1250 ∧ (1250 : ℚ) < 1500 ∧
    classify_market_concentration (hhiOf dsC) = "Competitive Market" ∧
    classify_market_concentration (hhiOf dsC) ≠ "Competitive" := by
  refine ⟨hhi_dsC_eval, by norm_num, ?_, ?_⟩
  · rw [hhi_dsC_eval]
    norm_num [classify_market_concentration]
  · rw [hhi_dsC_eval]
    norm_num [classify_market_concentration]
    decide

/-- C3 (amended): for any dataset with positive total visits the HHI is
10000 times the sum of squared shares over the present values, the
classification returned by `calculate_market_concentration` is the
threshold function of that (unrounded) HHI with labels "Competitive
Market" / "Moderately Concentrated" / "Highly Concentrated", and on the
concrete dataset with visits 100, 50, 50 the HHI is 3750, classified
"Highly Concentrated". -/
theorem C3_hhi_amended (ds : List Record) (hpos : 0 < totalVisits ds) :
    hhiOf ds = .num (10000 * ((presentVisits ds).map (fun v => (v / totalVisits ds) ^ 2)).sum) ∧
    (∀ s : AState, s.df = ds →
      (calculate_market_concentration s).1.classification =
        classify_market_concentration (hhiOf ds)) ∧
    (∀ q : ℚ, hhiOf ds = .num q →
      classify_market_concentration (hhiOf ds) =
        if q < 1500 then "Competitive Market"
        else if q < 2500 then "Moderately Concentrated"
        else "Highly Concentrated") ∧
    hhiOf ds3 = .num 3750 ∧
    classify_market_concentration (hhiOf ds3) = "Highly Concentrated" := by
  refine ⟨hhiOf_eq ds (ne_of_gt hpos), ?_, ?_, hhi_ds3_eval, ?_⟩
  · intro s hs
    rw [← hs]
    exact (conc_proj s).1
  · intro q hq
    rw [hq]
    rfl
  · rw [hhi_ds3_eval]
    norm_num [classify_market_concentration]

/-- C3 witness: the amended theorem applied at the concrete dataset with
visits 100, 50, 50 (total 200). -/
theorem C3_witness :
    hhiOf ds3 =
      .num (10000 * ((presentVisits ds3).map (fun v => (v / totalVisits ds3) ^ 2)).sum) :=
  (C3_hhi_amended ds3 (by rw [totalVisits_ds3]; norm_num)).1

/-- C4: `detect_outliers()` returns exactly (up to the descending order)
the records whose present visit count lies strictly below Q1 − 1.5·IQR or
strictly above Q3 + 1.5·IQR, it is sorted by visit count descending, it
never returns a record whose visit count lies inside the fences, and when
all present visit counts are equal the result is empty. -/
theorem C4_outlier_fences (ds : List Record) (q1 q3 : ℚ)
    (h1 : pdQuantile (presentVisits ds) (1/4) = some q1)
    (h3 : pdQuantile (presentVisits ds) (3/4) = some q3) :
    (detect_outliers ds).Perm (ds.filter (fun r =>
      match r.visits with
      | some v => decide (v < q1 - 3/2 * (q3 - q1)) || decide (q3 + 3/2 * (q3 - q1) < v)
      | none => false)) ∧
    (detect_outliers ds).Pairwise (fun a b => vkey b ≤ vkey a) ∧
    (∀ r ∈ detect_outliers ds, ∀ v, r.visits = some v →
      v < q1 - 3/2 * (q3 - q1) ∨ q3 + 3/2 * (q3 - q1) < v) ∧
    (∀ c : ℚ, (∀ x ∈ presentVisits ds, x = c) → detect_outliers ds = []) := by
  have hdef : detect_outliers ds = List.insertionSort rdesc (ds.filter (fun r =>
      match r.visits with
      | some v => decide (v < q1 - 3/2 * (q3 - q1)) || decide (q3 + 3/2 * (q3 - q1) < v)
      | none => false)) := by
    simp only [detect_outliers, h1, h3]
  refine ⟨?_, ?_, ?_, ?_⟩
  · rw [hdef]
    exact List.perm_insertionSort _ _
  · rw [hdef]
    exact List.sorted_insertionSort rdesc _
  · intro r hr v hv
    rw [hdef] at hr
    have hf := (List.perm_insertionSort rdesc _).mem_iff.mp hr
    have hpred := (List.mem_filter.mp hf).2
    simp only [hv] at hpred
    simpa using hpred
  · intro c hc
    have hne : presentVisits ds ≠ [] := by
      intro h0
      rw [h0] at h1
      simp [pdQuantile] at h1
    have hq1c : q1 = c := by
      have := pdQuantile_const hne hc (by norm_num : (1 : ℚ)/4 ≤ 1)
      rw [h1] at this
      exact Option.some.inj this
    have hq3c : q3 = c := by
      have := pdQuantile_const hne hc (by norm_num : (3 : ℚ)/4 ≤ 1)
      rw [h3] at this
      exact Option.some.inj this
    rw [hdef]
    have hfil : ds.filter (fun r =>
        match r.visits with
        | some v => decide (v < q1 - 3/2 * (q3 - q1)) || decide (q3 + 3/2 * (q3 - q1) < v)
        | none => false) = [] := by
      rw [List.filter_eq_nil_iff]
      intro r hr
      cases hv : r.visits with
      | none => simp [hv]
      | some v =>
        have hvp : v ∈ presentVisits ds := List.mem_filterMap.mpr ⟨r, hr, hv⟩
        have hvc := hc v hvp
        simp only [hv, hq1c, hq3c, hvc]
        norm_num
    rw [hfil]
    rfl

/-- C4 witness: the theorem applied at the dataset with present visit
values 1, 1, 1, 1, 100 (Q1 = Q3 = 1) and one missing value. -/
theorem C4_witness :
    (detect_outliers ds4).Perm (ds4.filter (fun r =>
      match r.visits with
      | some v => decide (v < 1 - 3/2 * (1 - 1)) || decide (1 + 3/2 * (1 - 1) < v)
      | none => false)) ∧
    (detect_outliers ds4).Pairwise (fun a b => vkey b ≤ vkey a) ∧
    (∀ r ∈ detect_outliers ds4, ∀ v, r.visits = some v →
      v < 1 - 3/2 * (1 - 1) ∨ 1 + 3/2 * (1 - 1) < v) ∧
    (∀ c : ℚ, (∀ x ∈ presentVisits ds4, x = c) → detect_outliers ds4 = []) :=
  C4_outlier_fences ds4 1 1 q1_ds4 q3_ds4

/-- C5 counterexample: on a dataset containing a record with a missing
visits value, `top_n(len(dataset))` does not return all records —
`nlargest` drops the missing-value row, so the result has length 1 on a
2-record dataset and the missing-value record is absent. -/
theorem C5_counterexample :
    (nlargest dsm.length dsm).length = 1 ∧ dsm.length = 2 ∧
    (⟨"b", none, none, "", none⟩ : Record) ∈ dsm ∧
    (⟨"b", none, none, "", none⟩ : Record) ∉ nlargest dsm.length dsm := by
  decide

/-- C5 (amended): `top_n(n)` returns the `min n k` records with the
largest present visit counts (k the number of records with present
visits), in non-increasing order; the selection is maximal (everything
left out has a visit count no larger than anything selected); ties are
broken by original row order (for every value v, the selected records
with visits v form an initial segment, in order, of the records of the
dataset with visits v); and `top_n(len(dataset))` returns all records
exactly when restricted to datasets whose visits are all present. -/
theorem C5_topn_amended (ds : List Record) (n : ℕ) :
    (nlargest n ds).Pairwise (fun a b => vkey b ≤ vkey a) ∧
    (nlargest n ds).length = min n (ds.filter (fun r => r.visits.isSome)).length ∧
    (∃ rest, ((nlargest n ds) ++ rest).Perm (ds.filter (fun r => r.visits.isSome)) ∧
      ∀ x ∈ nlargest n ds, ∀ y ∈ rest, vkey y ≤ vkey x) ∧
    (∀ v : ℚ, ∃ t, ds.filter (fun r => decide (r.visits = some v)) =
      (nlargest n ds).filter (fun r => decide (r.visits = some v)) ++ t) ∧
    ((∀ r ∈ ds, r.visits.isSome = true) → (nlargest ds.length ds).Perm ds) := by
  have hperm : (List.insertionSort rdesc (ds.filter (fun r => r.visits.isSome))).Perm
      (ds.filter (fun r => r.visits.isSome)) := List.perm_insertionSort _ _
  have hsorted : List.Sorted rdesc
      (List.insertionSort rdesc (ds.filter (fun r => r.visits.isSome))) :=
    List.sorted_insertionSort _ _
  refine ⟨?_, ?_, ?_, ?_, ?_⟩
  · exact List.Pairwise.sublist (List.take_sublist _ _) hsorted
  · rw [nlargest, List.length_take, hperm.length_eq]
  · refine ⟨(List.insertionSort rdesc (ds.filter (fun r => r.visits.isSome))).drop n, ?_, ?_⟩
    · rw [nlargest, List.take_append_drop]
      exact hperm
    · intro x hx y hy
      have hp : List.Pairwise rdesc
          ((List.insertionSort rdesc (ds.filter (fun r => r.visits.isSome))).take n ++
           (List.insertionSort rdesc (ds.filter (fun r => r.visits.isSome))).drop n) := by
        rw [List.take_append_drop]
        exact hsorted
      exact (List.pairwise_append.mp hp).2.2 x hx y hy
  · intro v
    refine ⟨((List.insertionSort rdesc (ds.filter (fun r => r.visits.isSome))).drop n).filter
      (fun r => decide (r.visits = some v)), ?_⟩
    have hfe : (ds.filter (fun r => r.visits.isSome)).filter
        (fun r => decide (r.visits = some v)) =
        ds.filter (fun r => decide (r.visits = some v)) := by
      rw [List.filter_filter]
      apply List.filter_congr
      intro r _
      cases hv : r.visits <;> simp [hv]
    calc ds.filter (fun r => decide (r.visits = some v))
        = (ds.filter (fun r => r.visits.isSome)).filter
            (fun r => decide (r.visits = some v)) := hfe.symm
      _ = (List.insertionSort rdesc (ds.filter (fun r => r.visits.isSome))).filter
            (fun r => decide (r.visits = some v)) :=
          (filter_visits_insertionSort v _).symm
      _ = ((List.insertionSort rdesc (ds.filter (fun r => r.visits.isSome))).take n).filter
            (fun r => decide (r.visits = some v)) ++
          ((List.insertionSort rdesc (ds.filter (fun r => r.visits.isSome))).drop n).filter
            (fun r => decide (r.visits = some v)) := by
          rw [← List.filter_append, List.take_append_drop]
  · intro hall
    have hfs : ds.filter (fun r => r.visits.isSome) = ds := List.filter_eq_self.mpr hall
    rw [nlargest, hfs]
    have hlen : (List.insertionSort rdesc ds).length = ds.length :=
      (List.perm_insertionSort rdesc ds).length_eq
    rw [← hlen, List.take_length]
    exact List.perm_insertionSort rdesc ds

/-- C5 witness: on an all-present dataset, `top_n(len(dataset))` is a
permutation of (returns exactly) the whole dataset. -/
theorem C5_witness : (nlargest ds3.length ds3).Perm ds3 :=
  (C5_topn_amended ds3 ds3.length).2.2.2.2 (by decide)

/-- C6: when a loaded dataset has a (unique) row with a missing visits
value, the row is still present in the dataset (the dataset keeps every
row of the file) while `describe()` and the percentile set are unchanged
when that row is removed — the aggregates are computed over present
values only. -/
theorem C6_missing_excluded (f : RawFrame) (ds : List Record) (i : ℕ)
    (hload : load f = Except.ok ds) (hi : i < ds.length)
    (hnone : (ds.get ⟨i, hi⟩).visits = none)
    (hrest : ∀ j (hj : j < ds.length), j ≠ i → ((ds.get ⟨j, hj⟩).visits).isSome = true) :
    ds.length = f.rows.length ∧
    presentVisits (ds.eraseIdx i) = presentVisits ds ∧
    describeVisits ds = describeVisits (ds.eraseIdx i) := by
  obtain ⟨iv, ish, idt, hv, hs, hd, hdate, hds⟩ := load_ok_elim hload
  exact ⟨by rw [hds]; simp, presentVisits_eraseIdx ds i hi hnone,
    (describeVisits_congr (presentVisits_eraseIdx ds i hi hnone)).symm⟩

/-- C6 witness: the theorem applied at the concrete file whose middle
row's visits cell is the non-numeral "oops". -/
theorem C6_witness :
    ds6.length = f6.rows.length ∧
    presentVisits (ds6.eraseIdx 1) = presentVisits ds6 ∧
    describeVisits ds6 = describeVisits (ds6.eraseIdx 1) :=
  C6_missing_excluded f6 ds6 1 rfl (by decide) (by decide)
    (by
      intro j hj hne
      match j with
      | 0 => rfl
      | 1 => exact absurd rfl hne
      | 2 => rfl
      | (k + 3) =>
        have h3 : ds6.length = 3 := rfl
        rw [h3] at hj
        omega)

/-- C7: for a dataset (non-negative visit counts, the data-model
invariant) with positive total visits, the HHI is invariant under any
permutation of the records and lies in the half-open interval
(0, 10000]. -/
theorem C7_hhi_invariance (ds ds' : List Record) (hperm : ds.Perm ds')
    (hnn : ∀ v ∈ presentVisits ds, 0 ≤ v) (hpos : 0 < totalVisits ds) :
    hhiOf ds' = hhiOf ds ∧
    ∃ q : ℚ, hhiOf ds = .num q ∧ 0 < q ∧ q ≤ 10000 := by
  have hT : totalVisits ds ≠ 0 := ne_of_gt hpos
  have hmm : (presentVisits ds).map (fun v => (v / totalVisits ds) ^ 2) =
      ((presentVisits ds).map (fun v => v / totalVisits ds)).map (fun x => x ^ 2) := by
    rw [List.map_map]
    exact List.map_congr_left (fun v _ => rfl)
  have hdiv_nonneg : ∀ x ∈ (presentVisits ds).map (fun v => v / totalVisits ds), 0 ≤ x := by
    intro x hx
    rcases List.mem_map.mp hx with ⟨v, hv, rfl⟩
    exact div_nonneg (hnn v hv) (le_of_lt hpos)
  have hsum1 : ((presentVisits ds).map (fun v => v / totalVisits ds)).sum = 1 := by
    rw [sum_map_div]
    exact div_self hT
  refine ⟨hhiOf_perm hperm, _, hhiOf_eq ds hT, ?_, ?_⟩
  · have hpos2 := sum_sq_pos _ hdiv_nonneg (by rw [hsum1]; norm_num)
    rw [hmm]
    exact mul_pos (by norm_num) hpos2
  · have hle := sum_sq_le_sq_sum _ hdiv_nonneg
    rw [hsum1] at hle
    rw [hmm]
    nlinarith [hle]

/-- C7 witness: invariance and range at the concrete dataset with visits
100, 50, 50 and one of its reorderings. -/
theorem C7_witness :
    hhiOf [⟨"b", some 50, none, "", none⟩, ⟨"c", some 50, none, "", none⟩,
           ⟨"a", some 100, none, "", none⟩] = hhiOf ds3 ∧
    ∃ q : ℚ, hhiOf ds3 = .num q ∧ 0 < q ∧ q ≤ 10000 :=
  C7_hhi_invariance ds3 _ (by decide) (by decide)
    (by rw [totalVisits_ds3]; norm_num)

/-- C8: `describe`, `detect_outliers` and `top_n` leave the analyzer
state unchanged; `calculate_market_concentration` changes only the
derived `Market_Share_Calc` column of the dataframe (slug, visits, total
share and capture date of every record are preserved) and neither
operation touches the stored source file content or path — nothing is
written back. -/
theorem C8_frame (s : AState) (n : ℕ) :
    (describeState s).2 = s ∧ (detectOutliersState s).2 = s ∧ (topNState n s).2 = s ∧
    (calculate_market_concentration s).2.df.map
        (fun r => (r.slug, r.visits, r.totalShare, r.captureDate)) =
      s.df.map (fun r => (r.slug, r.visits, r.totalShare, r.captureDate)) ∧
    (calculate_market_concentration s).2.src = s.src ∧
    (calculate_market_concentration s).2.csvPath = s.csvPath := by
  refine ⟨rfl, rfl, rfl, ?_, rfl, rfl⟩
  simp only [calculate_market_concentration, List.map_map]
  exact List.map_congr_left (fun r _ => rfl)

/-- C9 counterexample: on a well-formed file with a `Visits` header and
no data rows (every visits value parses, vacuously), `method1_basic_csv`
and `method2_pandas` both return 0 but `method3_with_stats` raises
`ZeroDivisionError` (`total / len(visits)` with `len(visits) = 0`), so
the three implementations do not agree as claimed. -/
theorem C9_counterexample :
    method1_basic_csv f9e = Except.ok 0 ∧ method2_pandas f9e = Except.ok (.int 0) ∧
    method3_with_stats f9e = Except.error .zeroDivisionError ∧
    ∀ st : Method3Stats, method3_with_stats f9e ≠ Except.ok st := by
  refine ⟨rfl, rfl, rfl, ?_⟩
  intro st h
  rw [show method3_with_stats f9e = Except.error .zeroDivisionError from rfl] at h
  exact Except.noConfusion h

/-- C9 (amended): for every file with a `Visits` column in which every
visits value parses as an integer and which has at least one data row,
the three implementations agree: `method1_basic_csv` and the `total`
field of `method3_with_stats` return the same sum, and `method2_pandas`
returns the same sum as an integer. -/
theorem C9_sums_amended (f : RawFrame) (i : ℕ)
    (hcol : colIdx f "Visits" = some i)
    (hall : ∀ row ∈ f.rows, (pyInt (row.getD i "")).isSome = true)
    (hne : f.rows ≠ []) :
    ∃ t : ℤ, method1_basic_csv f = Except.ok t ∧
      method2_pandas f = Except.ok (.int t) ∧
      ∃ st, method3_with_stats f = Except.ok st ∧ st.total = t := by
  refine ⟨(f.rows.filterMap (fun row => pyInt (row.getD i ""))).sum, ?_, ?_, ?_⟩
  · have h1 := method1_fold hcol f.rows hall 0
    simpa [method1_basic_csv] using h1
  · simp only [method2_pandas, hcol]
    rw [if_pos]
    · rw [List.filterMap_map]
      rfl
    · apply List.all_eq_true.mpr
      intro c hc
      rcases List.mem_map.mp hc with ⟨row, hrow, rfl⟩
      exact hall row hrow
  · have hrv := readVisits_ok hcol f.rows hall
    have hvs_ne := filterMap_pyInt_ne_nil hne hall
    simp only [method3_with_stats, hrv]
    rw [if_neg (fun h => hvs_ne (List.length_eq_zero.mp h))]
    exact ⟨_, rfl, rfl⟩

/-- C9 witness: the amended theorem applied at the two-row file with
visits 10 and 20. -/
theorem C9_witness :
    ∃ t : ℤ, method1_basic_csv f9 = Except.ok t ∧
      method2_pandas f9 = Except.ok (.int t) ∧
      ∃ st, method3_with_stats f9 = Except.ok st ∧ st.total = t :=
  C9_sums_amended f9 0 rfl (by decide) (by decide)

/-- C10: `detect_outliers()` never returns a record whose visits value is
missing — a missing value satisfies neither fence comparison, so such
records never pass the filter — and everything it returns is a record of
the dataset. -/
theorem C10_missing_never_outlier (ds : List Record) (r : Record)
    (hmem : r ∈ detect_outliers ds) : r.visits ≠ none ∧ r ∈ ds := by
  rcases h1 : pdQuantile (presentVisits ds) (1/4) with _ | q1
  · simp only [detect_outliers, h1] at hmem
    simp at hmem
  · rcases h3 : pdQuantile (presentVisits ds) (3/4) with _ | q3
    · simp only [detect_outliers, h1, h3] at hmem
      simp at hmem
    · simp only [detect_outliers, h1, h3] at hmem
      have hf := (List.perm_insertionSort rdesc _).mem_iff.mp hmem
      obtain ⟨hin, hpred⟩ := List.mem_filter.mp hf
      refine ⟨?_, hin⟩
      intro hnone
      rw [hnone] at hpred
      exact Bool.noConfusion hpred

/-- C10 witness: the theorem applied at the record with 100 visits, which
is an outlier of `ds4`. -/
theorem C10_witness : recE.visits ≠ none ∧ recE ∈ ds4 :=
  C10_missing_never_outlier ds4 recE (by rw [detOut_ds4]; simp)
